import Mathlib

/-!
Shallow embedding of the derived-finance computation engine of the
personal-finance app (backend/server.js, frontend/js/pots.js, and the
frontend App/Utils modules).

The repository ships three server variants concatenated in
backend/server.js: a MySQL + auth variant, a MySQL variant without auth,
and an in-memory (JSON-file) variant.  The claims reference the MySQL +
auth variant (the "Db" definitions below, whose state is the single
authenticated user's rows) and the in-memory variant (the "Mem"
definitions below, whose state is the global financeData object).

Monetary amounts are embedded as exact rationals (the JS code arithmetizes
on decimal numbers; none of the claims concern binary-float rounding).
Request fields that can be absent or fail parseFloat (NaN) are embedded as
Option Rat, none standing for absent/NaN.
-/

namespace FinanceApp

/-- Calendar date as the JS Date components used by the code:
year = getFullYear, month = getMonth (0-based, January = 0),
day = getDate (1-based).  All transaction dates in the app are date-only
ISO strings, which JS parses to UTC midnight, so a date is fully
described by these three components. -/
structure JsDate where
  year : Int
  month : Nat
  day : Nat
deriving Repr, DecidableEq, Inhabited

/-- Gregorian leap-year rule, as implemented by the JS Date object. -/
def isLeapYear (y : Int) : Bool :=
  (y % 4 == 0 && y % 100 != 0) || y % 400 == 0

/-- Number of days of month m (0-based) in year y, as used by JS Date
normalization. -/
def daysInMonth (y : Int) (m : Nat) : Nat :=
  match m with
  | 0 => 31
  | 1 => if isLeapYear y then 29 else 28
  | 2 => 31
  | 3 => 30
  | 4 => 31
  | 5 => 30
  | 6 => 31
  | 7 => 31
  | 8 => 30
  | 9 => 31
  | 10 => 30
  | _ => 31

/-- Step from month m (0-based) of year y to the following month,
rolling the year when m is December.  This is the month arithmetic JS
Date performs for setMonth(getMonth() + 1). -/
def nextMonthYear (y : Int) (m : Nat) : Int × Nat :=
  if 12 ≤ m + 1 then (y + 1, m + 1 - 12) else (y, m + 1)

/-- JS Date day-of-month normalization: while the day exceeds the length
of the current month, subtract that length and move to the next month.
The fuel argument (instantiated with the day itself) strictly bounds the
number of steps, since each step removes at least 28 days. -/
def rollDays : Nat → Int → Nat → Nat → JsDate
  | 0, y, m, d => ⟨y, m, d⟩
  | fuel + 1, y, m, d =>
    let dim := daysInMonth y m
    if d ≤ dim then ⟨y, m, d⟩
    else
      let ym := nextMonthYear y m
      rollDays fuel ym.1 ym.2 (d - dim)

/-- App.calculateNextDueDate (frontend app module) and the identical
inline computation in every recurring-bills endpoint:
next = new Date(lastDate); next.setMonth(next.getMonth() + 1).
JS setMonth keeps the day-of-month and then normalizes, overflowing into
the following month when the target month is shorter. -/
def calculateNextDueDate (dt : JsDate) : JsDate :=
  let ym := nextMonthYear dt.year dt.month
  rollDays dt.day ym.1 ym.2 dt.day

/-- Lexicographic order on dates; agrees with comparison of the JS
timestamps new Date(a) - new Date(b) for date-only values. -/
def JsDate.le (a b : JsDate) : Bool :=
  a.year < b.year ||
    (a.year == b.year &&
      (a.month < b.month || (a.month == b.month && a.day ≤ b.day)))

/-- Days since the Unix epoch (1970-01-01) of a civil date, month 0-based
(the standard days-from-civil algorithm).  new Date of a date-only string
is this value times 86400000 milliseconds. -/
def toDays (dt : JsDate) : Int :=
  let m : Int := dt.month + 1
  let y : Int := if m ≤ 2 then dt.year - 1 else dt.year
  let era : Int := (if 0 ≤ y then y else y - 399).ediv 400
  let yoe : Int := y - era * 400
  let mp : Int := (m + 9).emod 12
  let doy : Int := (153 * mp + 2).ediv 5 + (dt.day : Int) - 1
  let doe : Int := yoe * 365 + yoe.ediv 4 - yoe.ediv 100 + doy
  era * 146097 + doe - 719468

/-- Balance row: SELECT current, income, expenses FROM balance. -/
structure Balance where
  current : Rat
  income : Rat
  expenses : Rat
deriving Repr, DecidableEq

/-- Pot object of the in-memory variant (no id column; pots are addressed
by array index). -/
structure Pot where
  name : String
  target : Rat
  total : Rat
  theme : String
deriving Repr, DecidableEq, Inhabited

/-- Pot row of the MySQL variant: id, name, target, total, theme. -/
structure PotRow where
  id : Nat
  name : String
  target : Rat
  total : Rat
  theme : String
deriving Repr, DecidableEq, Inhabited

/-- Budget object of the in-memory variant. -/
structure Budget where
  category : String
  maximum : Rat
  theme : String
deriving Repr, DecidableEq

/-- Budget row of the MySQL variant. -/
structure BudgetRow where
  id : Nat
  category : String
  maximum : Rat
  theme : String
deriving Repr, DecidableEq

/-- Transaction record: id, avatar, name, category, date, amount
(signed: negative = expense), recurring flag. -/
structure Txn where
  id : Nat
  avatar : String
  name : String
  category : String
  date : JsDate
  amount : Rat
  recurring : Bool
deriving Repr, DecidableEq

/-- The in-memory variant's global financeData object. -/
structure FinanceData where
  balance : Balance
  transactions : List Txn
  budgets : List Budget
  pots : List Pot
deriving Repr, DecidableEq

/-- The MySQL variant's per-user rows (transactions are passed separately
to the read-side endpoints that need them).  nextId models the
auto-increment counter for inserts. -/
structure DbState where
  balance : Balance
  pots : List PotRow
  budgets : List BudgetRow
  nextId : Nat
deriving Repr, DecidableEq

/-- Error taxonomy of the HTTP handlers.  Each constructor corresponds to
one literal error response of server.js:
NotFound = 404 not-found responses; InvalidAmount = 400 Invalid amount;
InsufficientBalance = 400 Insufficient balance; InsufficientPotFunds =
400 Insufficient funds in pot; DuplicateCategory = 400 Budget for this
category already exists; ValidationError = 400 required-fields / no
fields to update. -/
inductive ApiError where
  | NotFound
  | InvalidAmount
  | InsufficientBalance
  | InsufficientPotFunds
  | DuplicateCategory
  | ValidationError
deriving Repr, DecidableEq

/-- True on the error constructor of Except. -/
def isErr {ε α : Type} : Except ε α → Bool
  | .error _ => true
  | .ok _ => false

/-- Request body of POST /api/pots.  Absent or empty name/theme are both
falsy in JS, so they are embedded as the empty string; target and total
are Option Rat with none for absent/NaN. -/
structure PotReq where
  name : String
  target : Option Rat
  total : Option Rat
  theme : String
deriving Repr, DecidableEq

/-- Request body of PUT /api/pots/:id: every field optional (undefined =
none). -/
structure PotUpdate where
  name : Option String
  target : Option Rat
  total : Option Rat
  theme : Option String
deriving Repr, DecidableEq

/-- POST /api/pots/:id/add, in-memory variant (server.js: bounds check,
parseFloat/positivity check, balance check, then pot.total += amount and
balance.current -= amount).  Result pairs the handler outcome (on
success, the updated pot and the new balance) with the state after the
call; every early-return error path leaves the state untouched. -/
def addToPotMem (s : FinanceData) (index : Int) (amount : Option Rat) :
    Except ApiError (Pot × Rat) × FinanceData :=
  if index < 0 ∨ (s.pots.length : Int) ≤ index then (.error .NotFound, s)
  else
    match amount with
    | none => (.error .InvalidAmount, s)
    | some addAmount =>
      if addAmount ≤ 0 then (.error .InvalidAmount, s)
      else if s.balance.current < addAmount then (.error .InsufficientBalance, s)
      else
        let i := index.toNat
        let pot := s.pots.getD i default
        let pot' := { pot with total := pot.total + addAmount }
        let balance' := { s.balance with current := s.balance.current - addAmount }
        (.ok (pot', balance'.current),
          { s with pots := s.pots.set i pot', balance := balance' })

/-- POST /api/pots/:id/withdraw, in-memory variant: bounds check,
positivity check, pot-funds check, then pot.total -= amount and
balance.current += amount. -/
def withdrawFromPotMem (s : FinanceData) (index : Int) (amount : Option Rat) :
    Except ApiError (Pot × Rat) × FinanceData :=
  if index < 0 ∨ (s.pots.length : Int) ≤ index then (.error .NotFound, s)
  else
    match amount with
    | none => (.error .InvalidAmount, s)
    | some withdrawAmount =>
      if withdrawAmount ≤ 0 then (.error .InvalidAmount, s)
      else if (s.pots.getD index.toNat default).total < withdrawAmount then
        (.error .InsufficientPotFunds, s)
      else
        let i := index.toNat
        let pot := s.pots.getD i default
        let pot' := { pot with total := pot.total - withdrawAmount }
        let balance' := { s.balance with current := s.balance.current + withdrawAmount }
        (.ok (pot', balance'.current),
          { s with pots := s.pots.set i pot', balance := balance' })

/-- DELETE /api/pots/:id, in-memory variant: bounds check, refund the
pot's total to balance.current, splice the pot out of the array.  On
success the response carries (returnedAmount, newBalance). -/
def deletePotMem (s : FinanceData) (index : Int) :
    Except ApiError (Rat × Rat) × FinanceData :=
  if index < 0 ∨ (s.pots.length : Int) ≤ index then (.error .NotFound, s)
  else
    let i := index.toNat
    let pot := s.pots.getD i default
    let balance' := { s.balance with current := s.balance.current + pot.total }
    (.ok (pot.total, balance'.current),
      { s with balance := balance', pots := s.pots.eraseIdx i })

/-- POST /api/pots, in-memory variant: the only validation is the JS
truthiness check on name, target and theme (empty string, absent target
and target 0 are falsy; a negative target passes).  total defaults to 0
when absent or NaN. -/
def createPotMem (s : FinanceData) (req : PotReq) :
    Except ApiError (Nat × Pot) × FinanceData :=
  if req.name = "" ∨ req.target = none ∨ req.target = some 0 ∨ req.theme = "" then
    (.error .ValidationError, s)
  else
    let newPot : Pot :=
      { name := req.name, target := req.target.getD 0,
        total := req.total.getD 0, theme := req.theme }
    (.ok (s.pots.length, newPot), { s with pots := s.pots ++ [newPot] })

/-- PUT /api/pots/:id, in-memory variant: bounds check, then each
provided field is assigned with no validation at all ('if (x !==
undefined) pot.x = ...'). -/
def updatePotMem (s : FinanceData) (index : Int) (upd : PotUpdate) :
    Except ApiError Pot × FinanceData :=
  if index < 0 ∨ (s.pots.length : Int) ≤ index then (.error .NotFound, s)
  else
    let i := index.toNat
    let pot := s.pots.getD i default
    let pot' : Pot :=
      { name := upd.name.getD pot.name,
        target := upd.target.getD pot.target,
        total := upd.total.getD pot.total,
        theme := upd.theme.getD pot.theme }
    (.ok pot', { s with pots := s.pots.set i pot' })

/-- POST /api/pots/:id/add, MySQL + auth variant: parseFloat/positivity
check, balance check (before the pot-existence check), pot-existence
check, then two UPDATE statements.  The SQL UPDATE ... WHERE id = ?
touches every row whose id matches. -/
def addToPotDb (s : DbState) (potId : Nat) (amount : Option Rat) :
    Except ApiError (PotRow × Rat) × DbState :=
  match amount with
  | none => (.error .InvalidAmount, s)
  | some addAmount =>
    if addAmount ≤ 0 then (.error .InvalidAmount, s)
    else if s.balance.current < addAmount then (.error .InsufficientBalance, s)
    else
      match s.pots.find? (fun p => p.id == potId) with
      | none => (.error .NotFound, s)
      | some pot =>
        let pot' := { pot with total := pot.total + addAmount }
        let balance' := { s.balance with current := s.balance.current - addAmount }
        (.ok (pot', balance'.current),
          { s with balance := balance',
                   pots := s.pots.map (fun p =>
                     if p.id == potId then { p with total := p.total + addAmount } else p) })

/-- POST /api/pots/:id/withdraw, MySQL + auth variant: positivity check,
pot lookup (NotFound), pot-funds check, then pot debit and balance
credit. -/
def withdrawFromPotDb (s : DbState) (potId : Nat) (amount : Option Rat) :
    Except ApiError (PotRow × Rat) × DbState :=
  match amount with
  | none => (.error .InvalidAmount, s)
  | some withdrawAmount =>
    if withdrawAmount ≤ 0 then (.error .InvalidAmount, s)
    else
      match s.pots.find? (fun p => p.id == potId) with
      | none => (.error .NotFound, s)
      | some pot =>
        if pot.total < withdrawAmount then (.error .InsufficientPotFunds, s)
        else
          let pot' := { pot with total := pot.total - withdrawAmount }
          let balance' := { s.balance with current := s.balance.current + withdrawAmount }
          (.ok (pot', balance'.current),
            { s with balance := balance',
                     pots := s.pots.map (fun p =>
                       if p.id == potId then { p with total := p.total - withdrawAmount } else p) })

/-- DELETE /api/pots/:id, MySQL + auth variant: SELECT the pot (NotFound
when no owned row matches), credit its total back to balance.current,
DELETE the row, and answer with (returnedAmount, newBalance). -/
def deletePotDb (s : DbState) (potId : Nat) :
    Except ApiError (Rat × Rat) × DbState :=
  match s.pots.find? (fun p => p.id == potId) with
  | none => (.error .NotFound, s)
  | some pot =>
    let balance' := { s.balance with current := s.balance.current + pot.total }
    (.ok (pot.total, balance'.current),
      { s with balance := balance',
               pots := s.pots.filter (fun p => !(p.id == potId)) })

/-- POST /api/pots, MySQL + auth variant: same truthiness-only validation
as the in-memory variant, then INSERT with an auto-increment id. -/
def createPotDb (s : DbState) (req : PotReq) :
    Except ApiError (Nat × PotRow) × DbState :=
  if req.name = "" ∨ req.target = none ∨ req.target = some 0 ∨ req.theme = "" then
    (.error .ValidationError, s)
  else
    let row : PotRow :=
      { id := s.nextId, name := req.name, target := req.target.getD 0,
        total := req.total.getD 0, theme := req.theme }
    (.ok (s.nextId, row),
      { s with pots := s.pots ++ [row], nextId := s.nextId + 1 })

/-- PUT /api/pots/:id, MySQL + auth variant: dynamically build the SET
clause from the provided fields (error when none is provided), UPDATE the
owned row (NotFound when affectedRows = 0), no field validation. -/
def updatePotDb (s : DbState) (potId : Nat) (upd : PotUpdate) :
    Except ApiError PotRow × DbState :=
  if upd.name = none ∧ upd.target = none ∧ upd.total = none ∧ upd.theme = none then
    (.error .ValidationError, s)
  else
    match s.pots.find? (fun p => p.id == potId) with
    | none => (.error .NotFound, s)
    | some pot =>
      let apply := fun (p : PotRow) =>
        { p with
          name := upd.name.getD p.name,
          target := upd.target.getD p.target,
          total := upd.total.getD p.total,
          theme := upd.theme.getD p.theme }
      (.ok (apply pot),
        { s with pots := s.pots.map (fun p => if p.id == potId then apply p else p) })

/-- String.prototype.trim: strip leading and trailing whitespace. -/
def jsTrim (s : String) : String :=
  ⟨((s.data.dropWhile Char.isWhitespace).reverse.dropWhile Char.isWhitespace).reverse⟩

/-- PotsPage.savePot (frontend/js/pots.js): trims the name, rejects an
empty name, rejects a target that fails parseFloat or is not strictly
positive, and otherwise builds the pot payload.  When editing, the
accumulated total of the edited pot is carried over explicitly
(editTotal); on create the total is 0 (editTotal = none). -/
def savePot (nameInput : String) (target : Option Rat) (theme : String)
    (editTotal : Option Rat) : Option Pot :=
  let name := jsTrim nameInput
  if name = "" then none
  else
    match target with
    | none => none
    | some t =>
      if t ≤ 0 then none
      else some { name := name, target := t, total := editTotal.getD 0, theme := theme }

/-- Request body of POST /api/budgets; maximum is Option Rat with none
for absent/NaN (both falsy in the JS validation, like the number 0). -/
structure BudgetReq where
  category : String
  maximum : Option Rat
  theme : String
deriving Repr, DecidableEq

/-- POST /api/budgets, in-memory variant: truthiness validation of the
three fields first, then the duplicate-category check over the user's
budgets (findIndex on category), then push. -/
def createBudgetMem (s : FinanceData) (req : BudgetReq) :
    Except ApiError (Nat × Budget) × FinanceData :=
  if req.category = "" ∨ req.maximum = none ∨ req.maximum = some 0 ∨ req.theme = "" then
    (.error .ValidationError, s)
  else if s.budgets.any (fun b => b.category == req.category) then
    (.error .DuplicateCategory, s)
  else
    let newBudget : Budget :=
      { category := req.category, maximum := req.maximum.getD 0, theme := req.theme }
    (.ok (s.budgets.length, newBudget), { s with budgets := s.budgets ++ [newBudget] })

/-- POST /api/budgets, MySQL + auth variant: truthiness validation, then
SELECT id FROM budgets WHERE category = ? AND user_id = ? for the
duplicate check, then INSERT. -/
def createBudgetDb (s : DbState) (req : BudgetReq) :
    Except ApiError (Nat × BudgetRow) × DbState :=
  if req.category = "" ∨ req.maximum = none ∨ req.maximum = some 0 ∨ req.theme = "" then
    (.error .ValidationError, s)
  else if (s.budgets.find? (fun b => b.category == req.category)).isSome then
    (.error .DuplicateCategory, s)
  else
    let row : BudgetRow :=
      { id := s.nextId, category := req.category,
        maximum := req.maximum.getD 0, theme := req.theme }
    (.ok (s.nextId, row),
      { s with budgets := s.budgets ++ [row], nextId := s.nextId + 1 })

/-- Math.round: round half toward positive infinity. -/
def jsRound (q : Rat) : Int := ⌊q + 1 / 2⌋

/-- Pot view returned by GET /api/pots: the pot fields plus the progress
percentage. -/
structure PotView where
  id : Nat
  name : String
  target : Rat
  total : Rat
  theme : String
  percentage : Int
deriving Repr, DecidableEq, Inhabited

/-- The percentage computed by both GET /api/pots variants:
pot.target > 0 ? Math.round((pot.total / pot.target) * 100) : 0. -/
def potPercentage (p : Pot) : Int :=
  if 0 < p.target then jsRound ((p.total / p.target) * 100) else 0

/-- GET /api/pots, in-memory variant: map each pot to its view, with the
array index as id. -/
def listPotsMemGo : Nat → List Pot → List PotView
  | _, [] => []
  | i, p :: ps =>
    { id := i, name := p.name, target := p.target, total := p.total,
      theme := p.theme, percentage := potPercentage p } :: listPotsMemGo (i + 1) ps

/-- GET /api/pots, in-memory variant (server.js: financeData.pots.map
with (pot, index)). -/
def listPotsMem (pots : List Pot) : List PotView := listPotsMemGo 0 pots

/-- GET /api/pots, MySQL + auth variant: identical percentage formula,
id taken from the row. -/
def listPotsDb (pots : List PotRow) : List PotView :=
  pots.map (fun p =>
    { id := p.id, name := p.name, target := p.target, total := p.total,
      theme := p.theme,
      percentage := potPercentage
        { name := p.name, target := p.target, total := p.total, theme := p.theme } })

/-- Following the spec's words for the pot progress percentage: if
target ≤ 0 the reported percentage is 0, and otherwise it is
round(100 * total / target).  Kept separate from potPercentage (the
source formula) so the two can be compared. -/
def specPotPercentage (p : Pot) : Int :=
  if p.target ≤ 0 then 0 else jsRound (100 * p.total / p.target)

/-- Pagination metadata of the transaction query responses. -/
structure Pagination where
  currentPage : Nat
  totalPages : Int
  totalItems : Nat
  hasNext : Bool
  hasPrev : Bool
deriving Repr, DecidableEq

/-- A page slice plus its pagination metadata. -/
structure Paginated (α : Type) where
  data : List α
  pagination : Pagination
deriving DecidableEq

/-- Utils.paginate (frontend utils module) and the pagination block of
GET /api/transactions in both server variants, which use the same
formulas: startIndex = (page - 1) * limit, data = slice(start, start +
limit) (LIMIT ? OFFSET ? in SQL), totalPages = Math.ceil(totalItems /
limit) with no minimum, currentPage echoes the requested page with no
clamping, hasNext = start + limit < totalItems, hasPrev = page > 1.
Math.ceil is embedded as Int.ceil over exact rationals; the model covers
the 1-indexed pages the handlers receive (the JS default turns an absent
or 0 page into 1). -/
def paginate {α : Type} (arr : List α) (page per : Nat) : Paginated α :=
  let startIndex := (page - 1) * per
  let endIndex := startIndex + per
  { data := (arr.drop startIndex).take per,
    pagination :=
      { currentPage := page,
        totalPages := Int.ceil ((arr.length : Rat) / (per : Rat)),
        totalItems := arr.length,
        hasNext := decide (endIndex < arr.length),
        hasPrev := decide (1 < page) } }

/-- Insert x into a list already sorted by the comparator: x goes before
the first element y for which keep y x is false.  keep y x reads "y stays
before x", i.e. the JS comparator returns a negative number on (y, x). -/
def insertSorted {α : Type} (keep : α → α → Bool) (x : α) : List α → List α
  | [] => [x]
  | y :: ys => if keep y x then y :: insertSorted keep x ys else x :: y :: ys

/-- Stable sort embedding JS Array.prototype.sort (stable per the
ECMAScript spec): elements the comparator ties keep their original
relative order. -/
def sortBy {α : Type} (keep : α → α → Bool) : List α → List α
  | [] => []
  | x :: xs => insertSorted keep x (sortBy keep xs)

/-- dates.sort((a, b) => new Date(b) - new Date(a)): descending by
date. -/
def sortDatesDesc (dates : List JsDate) : List JsDate :=
  sortBy (fun y x => !(JsDate.le y x)) dates

/-- List-of-characters substring test (String.prototype.includes). -/
def containsChars (pat : List Char) : List Char → Bool
  | [] => decide (pat = [])
  | c :: rest => pat.isPrefixOf (c :: rest) || containsChars pat rest

/-- s.includes(pat) on strings. -/
def containsStr (s pat : String) : Bool := containsChars pat.data s.data

/-- Accumulator entry of the recurringMap keyed by payee name (insertion
order preserved, as a JS Map does): the first transaction of the payee
supplies avatar, category and Math.abs(amount); every transaction of the
payee pushes its date. -/
structure BillAcc where
  name : String
  avatar : String
  category : String
  amount : Rat
  dates : List JsDate
deriving Repr, DecidableEq, Inhabited

/-- One step of filling the recurringMap with a recurring transaction. -/
def insertRecurring (m : List BillAcc) (t : Txn) : List BillAcc :=
  if m.any (fun b => b.name == t.name) then
    m.map (fun b => if b.name == t.name then { b with dates := b.dates ++ [t.date] } else b)
  else
    m ++ [{ name := t.name, avatar := t.avatar, category := t.category,
            amount := |t.amount|, dates := [t.date] }]

/-- transactions.filter(t => t.recurring) folded into the recurringMap
(in-memory GET /api/recurring-bills, App.processRecurringBills and
RecurringPage.processLocalData all build it this way). -/
def buildRecurringMap (ts : List Txn) : List BillAcc :=
  (ts.filter (fun t => t.recurring)).foldl insertRecurring []

/-- The distinct payee names among recurring transactions, in first-
encounter order: the key set of the recurringMap. -/
def distinctRecurringNames (ts : List Txn) : List String :=
  (ts.filter (fun t => t.recurring)).foldl
    (fun acc t => if acc.any (fun n => n == t.name) then acc else acc ++ [t.name]) []

/-- Recurring-bill record of the grouped (in-memory) endpoint. -/
structure RecurringBill where
  id : Nat
  name : String
  avatar : String
  category : String
  amount : Rat
  dates : List JsDate
  lastDate : JsDate
  nextDueDate : JsDate
  isPaid : Bool
  isDueSoon : Bool
  daysUntilDue : Int
deriving Repr, DecidableEq, Inhabited

/-- Classification of one recurringMap entry by the in-memory endpoint:
dates sorted descending (in place, so the response carries them sorted),
lastDate = sortedDates[0], nextDue = lastDate plus one JS month, isPaid
iff some date of the group lies in August 2024, daysUntilDue =
Math.ceil((nextDue - referenceDate) / 86400000) against the hardcoded
reference date 2024-08-19 (both instants are UTC midnights, so the
quotient is the exact whole-day difference), isDueSoon = not paid and
0 ≤ daysUntilDue ≤ 5. -/
def processBillMem (i : Nat) (b : BillAcc) : RecurringBill :=
  let sortedDates := sortDatesDesc b.dates
  let lastDate := sortedDates.headD default
  let nextDue := calculateNextDueDate lastDate
  let isPaid := sortedDates.any (fun d => d.month == 7 && d.year == 2024)
  let daysUntilDue := toDays nextDue - toDays ⟨2024, 7, 19⟩
  let isDueSoon := !isPaid && decide (0 ≤ daysUntilDue) && decide (daysUntilDue ≤ 5)
  { id := i, name := b.name, avatar := b.avatar, category := b.category,
    amount := b.amount, dates := sortedDates, lastDate := lastDate,
    nextDueDate := nextDue, isPaid := isPaid, isDueSoon := isDueSoon,
    daysUntilDue := daysUntilDue }

/-- Array.from(recurringMap.values()).map((bill, index) => ...) with the
index as id. -/
def processBillsGo : Nat → List BillAcc → List RecurringBill
  | _, [] => []
  | i, b :: bs => processBillMem i b :: processBillsGo (i + 1) bs

/-- The sort switch of the in-memory recurring-bills endpoint
(localeCompare embedded as code-point order on names). -/
def sortBillsMem (bills : List RecurringBill) (sort : String) : List RecurringBill :=
  if sort = "latest" then sortBy (fun y x => !(JsDate.le y.lastDate x.lastDate)) bills
  else if sort = "oldest" then sortBy (fun y x => !(JsDate.le x.lastDate y.lastDate)) bills
  else if sort = "a-z" then sortBy (fun y x => decide (y.name < x.name)) bills
  else if sort = "z-a" then sortBy (fun y x => decide (x.name < y.name)) bills
  else if sort = "highest" then sortBy (fun y x => decide (x.amount < y.amount)) bills
  else if sort = "lowest" then sortBy (fun y x => decide (y.amount < x.amount)) bills
  else bills

/-- Recurring-bills summary totals. -/
structure Summary where
  paid : Rat
  upcoming : Rat
  dueSoon : Rat
deriving Repr, DecidableEq

/-- reduce((sum, b) => sum + b.amount, 0). -/
def sumAmounts (amounts : List Rat) : Rat := amounts.foldl (fun sum a => sum + a) 0

/-- GET /api/recurring-bills, in-memory variant: build the recurringMap
from the recurring transactions, classify each payee group, filter by the
search term (absent or empty search is falsy and skips the filter), sort,
then compute the summary over the filtered and sorted list. -/
def recurringBillsMem (ts : List Txn) (search : Option String) (sort : String) :
    List RecurringBill × Summary :=
  let bills := processBillsGo 0 (buildRecurringMap ts)
  let bills :=
    match search with
    | none => bills
    | some q => bills.filter (fun b => containsStr b.name.toLower q.toLower)
  let bills := sortBillsMem bills sort
  (bills,
    { paid := sumAmounts ((bills.filter (fun b => b.isPaid)).map (fun b => b.amount)),
      upcoming := sumAmounts ((bills.filter (fun b => !b.isPaid)).map (fun b => b.amount)),
      dueSoon := sumAmounts ((bills.filter (fun b => b.isDueSoon)).map (fun b => b.amount)) })

/-- Recurring-bill record of the MySQL + auth endpoint, which emits one
record per transaction row (its SELECT has no GROUP BY or DISTINCT). -/
structure DbRecurringBill where
  id : Nat
  name : String
  avatar : String
  category : String
  amount : Rat
  lastDate : JsDate
  nextDueDate : JsDate
  isPaid : Bool
  isDueSoon : Bool
  daysUntilDue : Int
deriving Repr, DecidableEq, Inhabited

/-- Per-row classification of the MySQL + auth endpoint: lastDate is the
row's own date, isPaid iff that date lies in the current month and year
(new Date() at request time, embedded as the today parameter), and
daysUntilDue is measured from the same instant (embedded at UTC midnight
of today, making Math.ceil exact). -/
def processBillDb (today : JsDate) (t : Txn) : DbRecurringBill :=
  let lastDate := t.date
  let nextDue := calculateNextDueDate lastDate
  let isPaid := lastDate.month == today.month && lastDate.year == today.year
  let daysUntilDue := toDays nextDue - toDays today
  let isDueSoon := !isPaid && decide (0 ≤ daysUntilDue) && decide (daysUntilDue ≤ 5)
  { id := t.id, name := t.name, avatar := t.avatar, category := t.category,
    amount := |t.amount|, lastDate := lastDate, nextDueDate := nextDue,
    isPaid := isPaid, isDueSoon := isDueSoon, daysUntilDue := daysUntilDue }

/-- The ORDER BY switch of the MySQL recurring-bills query, over the raw
rows (date, name, or ABS(amount)). -/
def sortRowsDb (rows : List Txn) (sort : String) : List Txn :=
  if sort = "latest" then sortBy (fun y x => !(JsDate.le y.date x.date)) rows
  else if sort = "oldest" then sortBy (fun y x => !(JsDate.le x.date y.date)) rows
  else if sort = "a-z" then sortBy (fun y x => decide (y.name < x.name)) rows
  else if sort = "z-a" then sortBy (fun y x => decide (x.name < y.name)) rows
  else if sort = "highest" then sortBy (fun y x => decide (|x.amount| < |y.amount|)) rows
  else if sort = "lowest" then sortBy (fun y x => decide (|y.amount| < |x.amount|)) rows
  else sortBy (fun y x => !(JsDate.le y.date x.date)) rows

/-- GET /api/recurring-bills, MySQL + auth variant: WHERE recurring =
TRUE (plus the LIKE search, embedded case-insensitively as MySQL's
default collation compares), ORDER BY, then one processed record per
row and the summary over those records. -/
def recurringBillsDb (rows : List Txn) (search : Option String) (sort : String)
    (today : JsDate) : List DbRecurringBill × Summary :=
  let selected := rows.filter (fun t => t.recurring)
  let selected :=
    match search with
    | none => selected
    | some q => selected.filter (fun t => containsStr t.name.toLower q.toLower)
  let selected := sortRowsDb selected sort
  let bills := selected.map (processBillDb today)
  (bills,
    { paid := sumAmounts ((bills.filter (fun b => b.isPaid)).map (fun b => b.amount)),
      upcoming := sumAmounts ((bills.filter (fun b => !b.isPaid)).map (fun b => b.amount)),
      dueSoon := sumAmounts ((bills.filter (fun b => b.isDueSoon)).map (fun b => b.amount)) })

/-! Demonstration states and transactions used by witnesses and
counterexamples. -/

/-- A small financeData state: balance 5, one pot holding 20. -/
def demoFinanceData : FinanceData :=
  { balance := ⟨5, 0, 0⟩, transactions := [], budgets := [],
    pots := [⟨"Car", 100, 20, "red"⟩] }

/-- A small MySQL-variant state: balance 5, one pot with id 3 holding 20,
one budget for Bills. -/
def demoDbState : DbState :=
  { balance := ⟨5, 0, 0⟩, pots := [⟨3, "Car", 100, 20, "red"⟩],
    budgets := [⟨4, "Bills", 50, "green"⟩], nextId := 7 }

/-- Variant of the in-memory demo state that already has a Bills
budget. -/
def demoFinanceDataBills : FinanceData :=
  { demoFinanceData with budgets := [⟨"Bills", 30, "cyan"⟩] }

/-- Variant of the MySQL demo state with no budgets. -/
def demoDbStateNoBudget : DbState := { demoDbState with budgets := [] }

/-- Recurring Netflix transaction dated 2024-07-15. -/
def demoNetflixJul : Txn := ⟨1, "a", "Netflix", "Bills", ⟨2024, 6, 15⟩, -10, true⟩

/-- Recurring Netflix transaction dated 2024-08-15. -/
def demoNetflixAug : Txn := ⟨2, "a", "Netflix", "Bills", ⟨2024, 7, 15⟩, -10, true⟩

/-! Theorems. -/

/-- C1: for every state and every add-to-pot request whose amount exceeds
the current balance, both server variants fail and leave the state
exactly as before the call, and the error is InsufficientBalance whenever
the request reaches the balance check (a positive amount; for the
in-memory variant also an in-range pot index, since it checks the pot
index first, and for the MySQL variant regardless of pot existence, since
it checks the balance first). -/
theorem c1_addToPot_insufficient_balance
    (s : FinanceData) (d : DbState) (index : Int) (potId : Nat) (a : Rat)
    (hmem : s.balance.current < a) (hdb : d.balance.current < a) :
    (isErr (addToPotMem s index (some a)).1 = true ∧ (addToPotMem s index (some a)).2 = s) ∧
    (isErr (addToPotDb d potId (some a)).1 = true ∧ (addToPotDb d potId (some a)).2 = d) ∧
    (0 < a → ¬(index < 0 ∨ (s.pots.length : Int) ≤ index) →
      addToPotMem s index (some a) = (.error .InsufficientBalance, s)) ∧
    (0 < a → addToPotDb d potId (some a) = (.error .InsufficientBalance, d)) := by
  have hnle : ¬ a ≤ s.balance.current := not_le.mpr hmem
  have hnleD : ¬ a ≤ d.balance.current := not_le.mpr hdb
  refine ⟨?_, ?_, ?_, ?_⟩
  · unfold addToPotMem
    split
    · exact ⟨rfl, rfl⟩
    · by_cases h1 : a ≤ 0
      · simp [h1, isErr]
      · simp [h1, hmem, isErr]
  · unfold addToPotDb
    by_cases h1 : a ≤ 0
    · simp [h1, isErr]
    · simp [h1, hdb, isErr]
  · intro hpos hbound
    have h1 : ¬ a ≤ 0 := not_le.mpr hpos
    unfold addToPotMem
    simp [hbound, h1, hmem]
  · intro hpos
    have h1 : ¬ a ≤ 0 := not_le.mpr hpos
    unfold addToPotDb
    simp [h1, hdb]

/-- Witness for C1 at a concrete state: balance 5, request amount 10. -/
theorem c1_addToPot_insufficient_balance_witness :
    addToPotMem demoFinanceData 0 (some 10) = (.error .InsufficientBalance, demoFinanceData) ∧
    addToPotDb demoDbState 3 (some 10) = (.error .InsufficientBalance, demoDbState) := by
  have h := c1_addToPot_insufficient_balance demoFinanceData demoDbState 0 3 10
    (by norm_num [demoFinanceData]) (by norm_num [demoDbState])
  exact ⟨h.2.2.1 (by norm_num) (by simp [demoFinanceData]), h.2.2.2 (by norm_num)⟩

/-- getD at the index just written by set. -/
theorem getD_set_self {α : Type} [Inhabited α] (l : List α) (i : Nat) (x : α)
    (h : i < l.length) : (l.set i x).getD i default = x := by
  rw [List.getD_eq_getElem _ _ (by simpa using h)]
  exact List.getElem_set_self (by simpa using h)

/-- The pot-update function of the SQL UPDATE preserves the id predicate,
so composing it under find? changes nothing. -/
theorem find?_potId_comp (potId : Nat) (f : PotRow → PotRow)
    (hf : ∀ p, (f p).id = p.id) :
    ((fun p : PotRow => p.id == potId) ∘ f) = (fun p : PotRow => p.id == potId) := by
  funext p
  simp [Function.comp, hf]

/-- C2: for every successful addToPot with 0 < amount ≤ Balance.current
and every successful withdrawFromPot with 0 < amount ≤ Pot.total, in both
server variants, the change in Balance.current is exactly the negation of
the change in the targeted pot's total, and Balance.current stays ≥ 0
after addToPot. -/
theorem c2_transfer_delta
    (s : FinanceData) (d : DbState) (index : Int) (potId : Nat)
    (aA aW bA bW : Rat) (pot : PotRow)
    (hidx0 : 0 ≤ index) (hidxlen : index < (s.pots.length : Int))
    (hposA : 0 < aA) (hleA : aA ≤ s.balance.current)
    (hposW : 0 < aW) (hleW : aW ≤ (s.pots.getD index.toNat default).total)
    (hfind : d.pots.find? (fun p => p.id == potId) = some pot)
    (hposB : 0 < bA) (hleB : bA ≤ d.balance.current)
    (hposC : 0 < bW) (hleC : bW ≤ pot.total) :
    (isErr (addToPotMem s index (some aA)).1 = false ∧
     (addToPotMem s index (some aA)).2.balance.current = s.balance.current - aA ∧
     ((addToPotMem s index (some aA)).2.pots.getD index.toNat default).total
        = (s.pots.getD index.toNat default).total + aA ∧
     0 ≤ (addToPotMem s index (some aA)).2.balance.current ∧
     (addToPotMem s index (some aA)).2.balance.current - s.balance.current
        = -(((addToPotMem s index (some aA)).2.pots.getD index.toNat default).total
            - (s.pots.getD index.toNat default).total)) ∧
    (isErr (withdrawFromPotMem s index (some aW)).1 = false ∧
     (withdrawFromPotMem s index (some aW)).2.balance.current = s.balance.current + aW ∧
     ((withdrawFromPotMem s index (some aW)).2.pots.getD index.toNat default).total
        = (s.pots.getD index.toNat default).total - aW ∧
     (withdrawFromPotMem s index (some aW)).2.balance.current - s.balance.current
        = -(((withdrawFromPotMem s index (some aW)).2.pots.getD index.toNat default).total
            - (s.pots.getD index.toNat default).total)) ∧
    (isErr (addToPotDb d potId (some bA)).1 = false ∧
     (addToPotDb d potId (some bA)).2.balance.current = d.balance.current - bA ∧
     (addToPotDb d potId (some bA)).2.pots.find? (fun p => p.id == potId)
        = some { pot with total := pot.total + bA } ∧
     0 ≤ (addToPotDb d potId (some bA)).2.balance.current) ∧
    (isErr (withdrawFromPotDb d potId (some bW)).1 = false ∧
     (withdrawFromPotDb d potId (some bW)).2.balance.current = d.balance.current + bW ∧
     (withdrawFromPotDb d potId (some bW)).2.pots.find? (fun p => p.id == potId)
        = some { pot with total := pot.total - bW }) := by
  have hb : ¬(index < 0 ∨ (s.pots.length : Int) ≤ index) := by
    push_neg
    exact ⟨hidx0, hidxlen⟩
  have hi : index.toNat < s.pots.length := by omega
  have hresA : addToPotMem s index (some aA) =
      (.ok ({ s.pots.getD index.toNat default with
                total := (s.pots.getD index.toNat default).total + aA },
            s.balance.current - aA),
       { s with
           pots := s.pots.set index.toNat
             { s.pots.getD index.toNat default with
                 total := (s.pots.getD index.toNat default).total + aA },
           balance := { s.balance with current := s.balance.current - aA } }) := by
    simp only [addToPotMem]
    rw [if_neg hb, if_neg (not_le.mpr hposA), if_neg (not_lt.mpr hleA)]
  have hresW : withdrawFromPotMem s index (some aW) =
      (.ok ({ s.pots.getD index.toNat default with
                total := (s.pots.getD index.toNat default).total - aW },
            s.balance.current + aW),
       { s with
           pots := s.pots.set index.toNat
             { s.pots.getD index.toNat default with
                 total := (s.pots.getD index.toNat default).total - aW },
           balance := { s.balance with current := s.balance.current + aW } }) := by
    simp only [withdrawFromPotMem]
    rw [if_neg hb, if_neg (not_le.mpr hposW), if_neg (not_lt.mpr hleW)]
  have hpid : (pot.id == potId) = true := by
    have h := List.find?_some (l := d.pots) (p := fun p => p.id == potId) hfind
    simpa using h
  have hfindA : (d.pots.map (fun p =>
        if p.id == potId then { p with total := p.total + bA } else p)).find?
          (fun p => p.id == potId)
      = some { pot with total := pot.total + bA } := by
    rw [List.find?_map, find?_potId_comp potId _ (fun p => by by_cases hp : p.id = potId <;> simp [hp]),
      hfind]
    simp [show pot.id = potId from by simpa using hpid]
  have hfindW : (d.pots.map (fun p =>
        if p.id == potId then { p with total := p.total - bW } else p)).find?
          (fun p => p.id == potId)
      = some { pot with total := pot.total - bW } := by
    rw [List.find?_map, find?_potId_comp potId _ (fun p => by by_cases hp : p.id = potId <;> simp [hp]),
      hfind]
    simp [show pot.id = potId from by simpa using hpid]
  have hresB : addToPotDb d potId (some bA) =
      (.ok ({ pot with total := pot.total + bA }, d.balance.current - bA),
       { d with
           balance := { d.balance with current := d.balance.current - bA },
           pots := d.pots.map (fun p =>
             if p.id == potId then { p with total := p.total + bA } else p) }) := by
    simp [addToPotDb, hfind, not_le.mpr hposB, not_lt.mpr hleB]
  have hresC : withdrawFromPotDb d potId (some bW) =
      (.ok ({ pot with total := pot.total - bW }, d.balance.current + bW),
       { d with
           balance := { d.balance with current := d.balance.current + bW },
           pots := d.pots.map (fun p =>
             if p.id == potId then { p with total := p.total - bW } else p) }) := by
    simp [withdrawFromPotDb, hfind, not_le.mpr hposC, not_lt.mpr hleC]
  refine ⟨⟨?_, ?_, ?_, ?_, ?_⟩, ⟨?_, ?_, ?_, ?_⟩, ⟨?_, ?_, ?_, ?_⟩, ?_, ?_, ?_⟩
  · rw [hresA]; rfl
  · rw [hresA]
  · rw [hresA]
    show ((s.pots.set index.toNat _).getD index.toNat default).total = _
    rw [getD_set_self _ _ _ hi]
  · rw [hresA]
    show 0 ≤ s.balance.current - aA
    linarith
  · rw [hresA]
    show s.balance.current - aA - s.balance.current
        = -(((s.pots.set index.toNat _).getD index.toNat default).total
            - (s.pots.getD index.toNat default).total)
    rw [getD_set_self _ _ _ hi]
    ring
  · rw [hresW]; rfl
  · rw [hresW]
  · rw [hresW]
    show ((s.pots.set index.toNat _).getD index.toNat default).total = _
    rw [getD_set_self _ _ _ hi]
  · rw [hresW]
    show s.balance.current + aW - s.balance.current
        = -(((s.pots.set index.toNat _).getD index.toNat default).total
            - (s.pots.getD index.toNat default).total)
    rw [getD_set_self _ _ _ hi]
    ring
  · rw [hresB]; rfl
  · rw [hresB]
  · rw [hresB]
    exact hfindA
  · rw [hresB]
    show 0 ≤ d.balance.current - bA
    linarith
  · rw [hresC]; rfl
  · rw [hresC]
  · rw [hresC]
    exact hfindW

/-- Witness for C2 at concrete states: add 2 and withdraw 7 on the
in-memory state, add 3 and withdraw 6 on the MySQL state. -/
theorem c2_transfer_delta_witness :
    (addToPotMem demoFinanceData 0 (some 2)).2.balance.current
        - demoFinanceData.balance.current
      = -(((addToPotMem demoFinanceData 0 (some 2)).2.pots.getD 0 default).total
          - (demoFinanceData.pots.getD 0 default).total) ∧
    0 ≤ (addToPotMem demoFinanceData 0 (some 2)).2.balance.current ∧
    (withdrawFromPotMem demoFinanceData 0 (some 7)).2.balance.current
      = demoFinanceData.balance.current + 7 ∧
    (addToPotDb demoDbState 3 (some 3)).2.pots.find? (fun p => p.id == 3)
      = some ⟨3, "Car", 100, 23, "red"⟩ ∧
    (withdrawFromPotDb demoDbState 3 (some 6)).2.balance.current
      = demoDbState.balance.current + 6 := by
  have h := c2_transfer_delta demoFinanceData demoDbState 0 3 2 7 3 6
    ⟨3, "Car", 100, 20, "red"⟩ (by norm_num) (by simp [demoFinanceData])
    (by norm_num) (by norm_num [demoFinanceData])
    (by norm_num) (by norm_num [demoFinanceData])
    (by simp [demoDbState]) (by norm_num) (by norm_num [demoDbState])
    (by norm_num) (by norm_num)
  refine ⟨h.1.2.2.2.2, h.1.2.2.2.1, h.2.1.2.1, ?_, h.2.2.2.2.1⟩
  have := h.2.2.1.2.2.1
  convert this using 2
  norm_num

/-- C3: deletePot on an existing pot refunds the pot's whole total to the
balance (newBalance = oldBalance + pot.total), removes the pot record (in
the MySQL variant no row with the deleted id remains; in the in-memory
variant the entry is spliced out), and deletePot on a pot id not owned by
the user fails with NotFound leaving the state unchanged. -/
theorem c3_deletePot_refund
    (s : FinanceData) (d : DbState) (index : Int) (potId badId : Nat) (pot : PotRow)
    (hidx0 : 0 ≤ index) (hidxlen : index < (s.pots.length : Int))
    (hfind : d.pots.find? (fun p => p.id == potId) = some pot)
    (hbad : d.pots.find? (fun p => p.id == badId) = none) :
    (deletePotMem s index =
      (.ok ((s.pots.getD index.toNat default).total,
            s.balance.current + (s.pots.getD index.toNat default).total),
       { s with
           balance := { s.balance with
             current := s.balance.current + (s.pots.getD index.toNat default).total },
           pots := s.pots.eraseIdx index.toNat })) ∧
    ((deletePotDb d potId).1 = .ok (pot.total, d.balance.current + pot.total)) ∧
    ((deletePotDb d potId).2.balance.current = d.balance.current + pot.total) ∧
    (∀ p ∈ (deletePotDb d potId).2.pots, p.id ≠ potId) ∧
    (deletePotDb d badId = (.error .NotFound, d)) := by
  have hb : ¬(index < 0 ∨ (s.pots.length : Int) ≤ index) := by
    push_neg
    exact ⟨hidx0, hidxlen⟩
  have hdel : deletePotDb d potId =
      (.ok (pot.total, d.balance.current + pot.total),
       { d with
           balance := { d.balance with current := d.balance.current + pot.total },
           pots := d.pots.filter (fun p => !(p.id == potId)) }) := by
    simp only [deletePotDb]
    rw [hfind]
  refine ⟨?_, ?_, ?_, ?_, ?_⟩
  · simp only [deletePotMem]
    rw [if_neg hb]
  · rw [hdel]
  · rw [hdel]
  · rw [hdel]
    intro p hp
    have := (List.mem_filter.mp hp).2
    simpa using this
  · simp only [deletePotDb]
    rw [hbad]

/-- Witness for C3: deleting the only pot of the demo states refunds 20
on top of balance 5, and id 99 is NotFound. -/
theorem c3_deletePot_refund_witness :
    (deletePotDb demoDbState 3).1 = .ok (20, demoDbState.balance.current + 20) ∧
    (deletePotDb demoDbState 3).2.balance.current = demoDbState.balance.current + 20 ∧
    (deletePotDb demoDbState 99) = (.error .NotFound, demoDbState) ∧
    deletePotMem demoFinanceData 0 =
      (.ok (20, demoFinanceData.balance.current + 20),
       { demoFinanceData with
           balance := { demoFinanceData.balance with
             current := demoFinanceData.balance.current + 20 },
           pots := [] }) := by
  have h := c3_deletePot_refund demoFinanceData demoDbState 0 3 99
    ⟨3, "Car", 100, 20, "red"⟩ (by norm_num) (by simp [demoFinanceData])
    (by simp [demoDbState]) (by simp [demoDbState])
  refine ⟨?_, ?_, h.2.2.2.2, ?_⟩
  · have := h.2.1
    convert this using 3
  · have := h.2.2.1
    convert this using 2
  · have := h.1
    convert this using 3

/-- C7: createBudget for a category that already has a budget for the
user fails with DuplicateCategory and leaves the budget list unchanged,
and createBudget for a category with no existing budget succeeds, in both
variants.  The hypotheses require well-formed request fields (non-empty
category and theme, non-zero maximum), since the truthiness validation
runs before the duplicate check. -/
theorem c7_createBudget_duplicate
    (s sf : FinanceData) (d df : DbState) (req : BudgetReq) (mx : Rat)
    (hcat : ¬ req.category = "") (hmax : req.maximum = some mx) (hmx : ¬ mx = 0)
    (hth : ¬ req.theme = "")
    (hdup : s.budgets.any (fun b => b.category == req.category) = true)
    (hdupD : (d.budgets.find? (fun b => b.category == req.category)).isSome = true)
    (hfresh : sf.budgets.any (fun b => b.category == req.category) = false)
    (hfreshD : (df.budgets.find? (fun b => b.category == req.category)).isSome = false) :
    (createBudgetMem s req = (.error .DuplicateCategory, s)) ∧
    (createBudgetDb d req = (.error .DuplicateCategory, d)) ∧
    (createBudgetMem sf req =
      (.ok (sf.budgets.length, ⟨req.category, mx, req.theme⟩),
       { sf with budgets := sf.budgets ++ [⟨req.category, mx, req.theme⟩] })) ∧
    (createBudgetDb df req =
      (.ok (df.nextId, ⟨df.nextId, req.category, mx, req.theme⟩),
       { df with budgets := df.budgets ++ [⟨df.nextId, req.category, mx, req.theme⟩],
                 nextId := df.nextId + 1 })) := by
  have hvalid : ¬(req.category = "" ∨ req.maximum = none ∨ req.maximum = some 0 ∨
      req.theme = "") := by
    push_neg
    refine ⟨hcat, by simp [hmax], by simp [hmax, hmx], hth⟩
  refine ⟨?_, ?_, ?_, ?_⟩
  · simp only [createBudgetMem]
    rw [if_neg hvalid, if_pos hdup]
  · simp only [createBudgetDb]
    rw [if_neg hvalid, if_pos hdupD]
  · simp only [createBudgetMem]
    rw [if_neg hvalid, if_neg (by simp [hfresh])]
    simp [hmax]
  · simp only [createBudgetDb]
    rw [if_neg hvalid, if_neg (by simp [hfreshD])]
    simp [hmax]

/-- Witness for C7: a duplicate Bills budget is rejected on the states
that already hold one, and created on the states that do not. -/
theorem c7_createBudget_duplicate_witness :
    createBudgetMem demoFinanceDataBills ⟨"Bills", some 50, "green"⟩
      = (.error .DuplicateCategory, demoFinanceDataBills) ∧
    createBudgetDb demoDbState ⟨"Bills", some 50, "green"⟩
      = (.error .DuplicateCategory, demoDbState) ∧
    createBudgetMem demoFinanceData ⟨"Bills", some 50, "green"⟩
      = (.ok (0, ⟨"Bills", 50, "green"⟩),
         { demoFinanceData with budgets := [⟨"Bills", 50, "green"⟩] }) ∧
    createBudgetDb demoDbStateNoBudget ⟨"Bills", some 50, "green"⟩
      = (.ok (7, ⟨7, "Bills", 50, "green"⟩),
         { demoDbStateNoBudget with budgets := [⟨7, "Bills", 50, "green"⟩], nextId := 8 }) := by
  have h := c7_createBudget_duplicate demoFinanceDataBills demoFinanceData
    demoDbState demoDbStateNoBudget ⟨"Bills", some 50, "green"⟩ 50
    (by simp) rfl (by norm_num) (by simp)
    (by simp [demoFinanceDataBills]) (by simp [demoDbState])
    (by simp [demoFinanceData]) (by simp [demoDbStateNoBudget, demoDbState])
  exact ⟨h.1, h.2.1, h.2.2.1, h.2.2.2⟩

/-- Setting an index back to the value it already holds leaves the list
unchanged. -/
theorem set_getD_eq_self {α : Type} [Inhabited α] (l : List α) (i : Nat)
    (h : i < l.length) : l.set i (l.getD i default) = l := by
  induction l generalizing i with
  | nil => simp at h
  | cons x xs ih =>
    cases i with
    | zero => simp
    | succ j =>
      simp only [List.getD_cons_succ, List.set]
      rw [ih j (by simpa using h)]

/-- PUT /api/pots/:id (in-memory) with no total field provided leaves
every pot's total unchanged. -/
theorem updatePotMem_total_preserved (s : FinanceData) (index : Int) (upd : PotUpdate)
    (hupd : upd.total = none) :
    (updatePotMem s index upd).2.pots.map (fun p => p.total)
      = s.pots.map (fun p => p.total) := by
  simp only [updatePotMem]
  split
  · rfl
  · rename_i hguard
    have hi : index.toNat < s.pots.length := by
      rcases not_or.mp hguard with ⟨h1, h2⟩
      omega
    simp only [hupd, Option.getD_none]
    rw [List.map_set]
    have h1 : (s.pots.getD index.toNat default).total
        = (s.pots.map (fun p => p.total)).getD index.toNat default := by
      rw [List.getD_eq_getElem _ _ hi, List.getD_eq_getElem _ _ (by simpa using hi),
        List.getElem_map]
    rw [h1, set_getD_eq_self _ _ (by simpa using hi)]

/-- PUT /api/pots/:id (MySQL) with no total field in the SET clause
leaves every pot's (id, total) pair unchanged. -/
theorem updatePotDb_total_preserved (d : DbState) (potId : Nat) (upd : PotUpdate)
    (hupd : upd.total = none) :
    (updatePotDb d potId upd).2.pots.map (fun p => (p.id, p.total))
      = d.pots.map (fun p => (p.id, p.total)) := by
  simp only [updatePotDb]
  split
  · rfl
  · split
    · rfl
    · rw [List.map_map]
      exact List.map_congr_left (fun p _ => by
        by_cases hp : p.id = potId <;> simp [Function.comp, hp, hupd])

/-- C8 (amended): the frontend savePot rejects exactly the requests whose
trimmed name is empty or whose target fails parseFloat or is not strictly
positive; the server createPot rejects only falsy fields (empty name or
theme, absent/NaN/zero target) so a negative target is accepted; the
server updatePot validates nothing; and updatePot in both variants leaves
every pot's total unchanged whenever no total field is provided. -/
theorem c8_pot_validation
    (n : String) (t : Option Rat) (th : String) (e : Option Rat)
    (s s2 : FinanceData) (d d2 : DbState) (index : Int) (potId : Nat)
    (upd updD : PotUpdate) (hupd : upd.total = none) (hupdD : updD.total = none)
    (req reqD : PotReq)
    (hbad : req.name = "" ∨ req.target = none ∨ req.target = some 0)
    (hbadD : reqD.name = "" ∨ reqD.target = none ∨ reqD.target = some 0) :
    (savePot n t th e = none ↔
      jsTrim n = "" ∨ t = none ∨ ∃ v, t = some v ∧ v ≤ 0) ∧
    (∀ p, savePot n t th e = some p → ¬ p.name = "" ∧ 0 < p.target) ∧
    (createPotMem s req = (.error .ValidationError, s)) ∧
    (createPotDb d reqD = (.error .ValidationError, d)) ∧
    ((updatePotMem s2 index upd).2.pots.map (fun p => p.total)
       = s2.pots.map (fun p => p.total)) ∧
    ((updatePotDb d2 potId updD).2.pots.map (fun p => (p.id, p.total))
       = d2.pots.map (fun p => (p.id, p.total))) := by
  refine ⟨?_, ?_, ?_, ?_, updatePotMem_total_preserved s2 index upd hupd,
    updatePotDb_total_preserved d2 potId updD hupdD⟩
  · by_cases hn : jsTrim n = ""
    · simp [savePot, hn]
    · cases t with
      | none => simp [savePot, hn]
      | some v =>
        by_cases hv : v ≤ 0
        · simp [savePot, hn, hv]
        · simp [savePot, hn, hv]
  · intro p hp
    by_cases hn : jsTrim n = ""
    · exact absurd hp (by simp [savePot, hn])
    · cases t with
      | none => exact absurd hp (by simp [savePot, hn])
      | some v =>
        by_cases hv : v ≤ 0
        · exact absurd hp (by simp [savePot, hn, hv])
        · have hval : savePot n (some v) th e = some ⟨jsTrim n, v, e.getD 0, th⟩ := by
            simp [savePot, hn, hv]
          rw [hval] at hp
          obtain rfl := Option.some.inj hp
          exact ⟨hn, lt_of_not_le hv⟩
  · simp only [createPotMem]
    rw [if_pos (by tauto)]
  · simp only [createPotDb]
    rw [if_pos (by tauto)]

/-- Witness for C8 at concrete inputs: a valid savePot, an empty-name
create request, and total-free updates. -/
theorem c8_pot_validation_witness :
    (savePot "Trip" (some 5) "red" none = none ↔
      jsTrim "Trip" = "" ∨ (some 5 : Option Rat) = none ∨
        ∃ v, (some 5 : Option Rat) = some v ∧ v ≤ 0) ∧
    createPotMem demoFinanceData ⟨"", some 5, none, "red"⟩
      = (.error .ValidationError, demoFinanceData) ∧
    (updatePotMem demoFinanceData 0 ⟨some "", some (-3), none, none⟩).2.pots.map
        (fun p => p.total)
      = demoFinanceData.pots.map (fun p => p.total) := by
  have h := c8_pot_validation "Trip" (some 5) "red" none
    demoFinanceData demoFinanceData demoDbState demoDbState 0 3
    ⟨some "", some (-3), none, none⟩ ⟨none, none, none, none⟩ rfl rfl
    ⟨"", some 5, none, "red"⟩ ⟨"", some 5, none, "red"⟩
    (Or.inl rfl) (Or.inl rfl)
  exact ⟨h.1, h.2.2.1, h.2.2.2.2.1⟩

/-- C8 counterexample: the server createPot accepts a request whose
target is the negative number -5 (the claim says any non-positive target
is rejected), and the server updatePot accepts an empty name. -/
theorem c8_server_accepts_negative_target :
    createPotMem demoFinanceData ⟨"Trip", some (-5), none, "red"⟩
      = (.ok (1, ⟨"Trip", -5, 0, "red"⟩),
         { demoFinanceData with pots := demoFinanceData.pots ++ [⟨"Trip", -5, 0, "red"⟩] }) ∧
    createPotDb demoDbState ⟨"Trip", some (-5), none, "red"⟩
      = (.ok (7, ⟨7, "Trip", -5, 0, "red"⟩),
         { demoDbState with pots := demoDbState.pots ++ [⟨7, "Trip", -5, 0, "red"⟩], nextId := 8 }) ∧
    (updatePotMem demoFinanceData 0 ⟨some "", none, none, none⟩).1
      = .ok ⟨"", 100, 20, "red"⟩ := by
  refine ⟨rfl, rfl, rfl⟩

/-- The source percentage formula agrees pointwise with the spec's
phrasing: 0 when target ≤ 0, round(100 * total / target) otherwise. -/
theorem potPercentage_eq_spec (p : Pot) : potPercentage p = specPotPercentage p := by
  unfold potPercentage specPotPercentage
  by_cases h : 0 < p.target
  · rw [if_pos h, if_neg (not_le.mpr h)]
    congr 1
    ring
  · rw [if_neg h, if_pos (not_lt.mp h)]

/-- The in-memory pot listing hits every index with the source
percentage formula. -/
theorem listPotsMemGo_percentage (pots : List Pot) (k i : Nat) (h : i < pots.length) :
    ((listPotsMemGo k pots).getD i default).percentage
      = potPercentage (pots.getD i default) := by
  induction pots generalizing k i with
  | nil => simp at h
  | cons p ps ih =>
    cases i with
    | zero => rfl
    | succ j =>
      simp only [listPotsMemGo, List.getD_cons_succ]
      exact ih (k + 1) j (by simpa using h)

/-- C10: the pot listing never divides by zero when computing the
progress percentage: in both variants every listed pot whose target is
≤ 0 reports percentage 0, and otherwise reports
round(100 * total / target), exactly as the spec words it. -/
theorem c10_pot_percentage (pots : List Pot) (rows : List PotRow) (i j : Nat)
    (hi : i < pots.length) (hj : j < rows.length) :
    ((listPotsMem pots).getD i default).percentage
      = specPotPercentage (pots.getD i default) ∧
    ((listPotsDb rows).getD j default).percentage
      = specPotPercentage ⟨(rows.getD j default).name, (rows.getD j default).target,
          (rows.getD j default).total, (rows.getD j default).theme⟩ := by
  constructor
  · rw [listPotsMem, listPotsMemGo_percentage pots 0 i hi, potPercentage_eq_spec]
  · rw [← potPercentage_eq_spec]
    unfold listPotsDb
    rw [List.getD_eq_getElem _ _ (by simpa using hj), List.getElem_map,
      List.getD_eq_getElem _ _ hj]

/-- Witness for C10 on the demo pot (target 100, total 20, percentage
20) and on a degenerate pot with target 0. -/
theorem c10_pot_percentage_witness :
    ((listPotsMem [⟨"Car", 100, 20, "red"⟩, ⟨"Zero", 0, 5, "blue"⟩]).getD 1 default).percentage
      = specPotPercentage ⟨"Zero", 0, 5, "blue"⟩ ∧
    ((listPotsDb demoDbState.pots).getD 0 default).percentage
      = specPotPercentage ⟨"Car", 100, 20, "red"⟩ := by
  have h := c10_pot_percentage [⟨"Car", 100, 20, "red"⟩, ⟨"Zero", 0, 5, "blue"⟩]
    demoDbState.pots 1 0 (by norm_num) (by simp [demoDbState])
  exact ⟨h.1, h.2⟩

/-- Math.ceil of an exact Nat quotient equals the rounded-up Nat
division. -/
theorem int_ceil_natCast_div (n d : Nat) (hd : 1 ≤ d) :
    ⌈((n : Rat) / (d : Rat))⌉ = (((n + d - 1) / d : Nat) : Int) := by
  have hd0 : (0 : Rat) < (d : Rat) := by exact_mod_cast hd
  have hmod := Nat.div_add_mod (n + d - 1) d
  have hlt : (n + d - 1) % d < d := Nat.mod_lt _ (by omega)
  set q := (n + d - 1) / d with hq
  have f1 : n ≤ d * q := by omega
  have f2 : d * q < n + d := by omega
  rw [Int.ceil_eq_iff]
  constructor
  · push_cast
    rw [lt_div_iff₀ hd0]
    have f2r : (d : Rat) * q < n + d := by exact_mod_cast f2
    nlinarith
  · push_cast
    rw [div_le_iff₀ hd0]
    have f1r : (n : Rat) ≤ d * q := by exact_mod_cast f1
    nlinarith

/-- C6 counterexample: 25 transactions with pageSize 10 and requested
page 5 do NOT clamp.  The response echoes currentPage 5 with an empty
data slice (page 3 holds the last 5 items), and an empty transaction set
yields totalPages 0, not the claimed minimum of 1. -/
theorem c6_page_out_of_range_not_clamped :
    (paginate (List.range 25) 5 10).data = [] ∧
    (paginate (List.range 25) 5 10).pagination.currentPage = 5 ∧
    (paginate (List.range 25) 3 10).data = [20, 21, 22, 23, 24] ∧
    (paginate ([] : List Nat) 1 10).pagination.totalPages = 0 := by
  refine ⟨by decide, rfl, by decide, ?_⟩
  show Int.ceil (((List.length ([] : List Nat) : Rat)) / ((10 : Nat) : Rat)) = 0
  norm_num

/-- C6 (amended): totalPages = ceil(totalItems / pageSize) with NO
minimum (an empty set yields 0), the requested page is echoed without
clamping, and a page beyond the last yields an empty data slice; the
data is always the slice [(page-1)*size, page*size). -/
theorem c6_pagination_formulas {α : Type} (arr : List α) (page per : Nat)
    (hpage : 1 ≤ page) (hper : 1 ≤ per) :
    (paginate arr page per).pagination.currentPage = page ∧
    (paginate arr page per).pagination.totalPages
      = (((arr.length + per - 1) / per : Nat) : Int) ∧
    (arr.length = 0 → (paginate arr page per).pagination.totalPages = 0) ∧
    (arr.length ≤ (page - 1) * per → (paginate arr page per).data = []) ∧
    (paginate arr page per).data = (arr.drop ((page - 1) * per)).take per := by
  refine ⟨rfl, ?_, ?_, ?_, rfl⟩
  · exact int_ceil_natCast_div arr.length per hper
  · intro h0
    show Int.ceil ((arr.length : Rat) / ((per : Nat) : Rat)) = 0
    rw [h0]
    norm_num
  · intro hout
    show (arr.drop ((page - 1) * per)).take per = []
    rw [List.drop_eq_nil_of_le hout]
    simp

/-- Witness for C6 at 25 items, pageSize 10: totalPages 3, and page 5 is
out of range so its slice is empty. -/
theorem c6_pagination_formulas_witness :
    (paginate (List.range 25) 5 10).pagination.totalPages = 3 ∧
    (paginate (List.range 25) 5 10).data = ([] : List Nat) := by
  have h := c6_pagination_formulas (List.range 25) 5 10 (by norm_num) (by norm_num)
  refine ⟨?_, h.2.2.2.1 (by decide)⟩
  rw [h.2.1]
  decide

/-- Every month has at least 28 days. -/
theorem daysInMonth_ge (y : Int) (m : Nat) : 28 ≤ daysInMonth y m := by
  unfold daysInMonth
  split <;> (try split) <;> omega

/-- C4 counterexample: lastDate 2024-01-31 (a leap year) yields
nextDueDate 2024-03-02, not the claimed clamped 2024-02-29: the JS
setMonth arithmetic overflows the 31st into March instead of clamping to
February's last day. -/
theorem c4_month_end_not_clamped :
    calculateNextDueDate ⟨2024, 0, 31⟩ = ⟨2024, 2, 2⟩ ∧
    calculateNextDueDate ⟨2024, 0, 31⟩ ≠ ⟨2024, 1, 29⟩ ∧
    calculateNextDueDate ⟨2023, 0, 31⟩ = ⟨2023, 2, 3⟩ := by
  refine ⟨by decide, by decide, by decide⟩

/-- C4 (amended): nextDueDate advances lastDate by one month keeping the
day-of-month when the target month has that day, and otherwise overflows
past the target month's end into the following month by the excess days
(JS setMonth semantics), rather than clamping. -/
theorem c4_next_due_date (dt : JsDate) (h1 : 1 ≤ dt.day) (h2 : dt.day ≤ 31) :
    calculateNextDueDate dt =
      if dt.day ≤ daysInMonth (nextMonthYear dt.year dt.month).1
          (nextMonthYear dt.year dt.month).2 then
        ⟨(nextMonthYear dt.year dt.month).1, (nextMonthYear dt.year dt.month).2, dt.day⟩
      else
        ⟨(nextMonthYear (nextMonthYear dt.year dt.month).1
            (nextMonthYear dt.year dt.month).2).1,
         (nextMonthYear (nextMonthYear dt.year dt.month).1
            (nextMonthYear dt.year dt.month).2).2,
         dt.day - daysInMonth (nextMonthYear dt.year dt.month).1
            (nextMonthYear dt.year dt.month).2⟩ := by
  obtain ⟨y, m, d⟩ := dt
  simp only at h1 h2 ⊢
  unfold calculateNextDueDate
  simp only
  obtain ⟨k, rfl⟩ : ∃ k, d = k + 1 := ⟨d - 1, by omega⟩
  set ym := nextMonthYear y m with hym
  set dim := daysInMonth ym.1 ym.2 with hdim
  have hdim28 : 28 ≤ dim := daysInMonth_ge ym.1 ym.2
  by_cases hle : k + 1 ≤ dim
  · rw [if_pos hle]
    unfold rollDays
    simp only [← hdim, if_pos hle]
  · rw [if_neg hle]
    unfold rollDays
    simp only [← hdim, if_neg hle]
    obtain ⟨j, hj⟩ : ∃ j, k = j + 1 := ⟨k - 1, by omega⟩
    rw [hj]
    unfold rollDays
    have hsmall : j + 1 + 1 - dim ≤ daysInMonth (nextMonthYear ym.1 ym.2).1
        (nextMonthYear ym.1 ym.2).2 := by
      have := daysInMonth_ge (nextMonthYear ym.1 ym.2).1 (nextMonthYear ym.1 ym.2).2
      omega
    simp only [if_pos hsmall]

/-- Witness for C4 at the claim's own example date 2024-01-31. -/
theorem c4_next_due_date_witness :
    calculateNextDueDate ⟨2024, 0, 31⟩ =
      if (31 : Nat) ≤ daysInMonth (nextMonthYear 2024 0).1 (nextMonthYear 2024 0).2 then
        ⟨(nextMonthYear 2024 0).1, (nextMonthYear 2024 0).2, 31⟩
      else
        ⟨(nextMonthYear (nextMonthYear 2024 0).1 (nextMonthYear 2024 0).2).1,
         (nextMonthYear (nextMonthYear 2024 0).1 (nextMonthYear 2024 0).2).2,
         31 - daysInMonth (nextMonthYear 2024 0).1 (nextMonthYear 2024 0).2⟩ :=
  c4_next_due_date ⟨2024, 0, 31⟩ (by decide) (by decide)

/-- Membership is invariant under sorted insertion. -/
theorem mem_insertSorted {α : Type} (keep : α → α → Bool) (x a : α) (l : List α) :
    a ∈ insertSorted keep x l ↔ a = x ∨ a ∈ l := by
  induction l with
  | nil => simp [insertSorted]
  | cons y ys ih =>
    simp only [insertSorted]
    split
    · rw [List.mem_cons, List.mem_cons, ih]
      tauto
    · simp only [List.mem_cons]

/-- Membership is invariant under the stable sort. -/
theorem mem_sortBy {α : Type} (keep : α → α → Bool) (a : α) (l : List α) :
    a ∈ sortBy keep l ↔ a ∈ l := by
  induction l with
  | nil => simp [sortBy]
  | cons x xs ih =>
    simp only [sortBy]
    rw [mem_insertSorted]
    simp [ih]

/-- The bill sort switch never adds or removes records. -/
theorem mem_sortBillsMem (bills : List RecurringBill) (sort : String)
    (b : RecurringBill) : b ∈ sortBillsMem bills sort ↔ b ∈ bills := by
  unfold sortBillsMem
  split_ifs <;> simp [mem_sortBy]

/-- Sorted insertion permutes the element onto the list. -/
theorem insertSorted_perm {α : Type} (keep : α → α → Bool) (x : α) (l : List α) :
    List.Perm (insertSorted keep x l) (x :: l) := by
  induction l with
  | nil => simp [insertSorted]
  | cons y ys ih =>
    simp only [insertSorted]
    split
    · exact (ih.cons y).trans (List.Perm.swap x y ys)
    · exact List.Perm.refl _

/-- The stable sort is a permutation. -/
theorem sortBy_perm {α : Type} (keep : α → α → Bool) (l : List α) :
    List.Perm (sortBy keep l) l := by
  induction l with
  | nil => exact List.Perm.refl _
  | cons x xs ih => exact (insertSorted_perm keep x (sortBy keep xs)).trans (ih.cons x)

/-- The bill sort switch is a permutation for every sort key. -/
theorem sortBillsMem_perm (bills : List RecurringBill) (sort : String) :
    List.Perm (sortBillsMem bills sort) bills := by
  unfold sortBillsMem
  split_ifs <;> first | exact sortBy_perm _ _ | exact List.Perm.refl _

/-- Reflexivity of the date order. -/
theorem JsDate.le_refl (a : JsDate) : JsDate.le a a = true := by
  simp [JsDate.le]

/-- Totality of the date order. -/
theorem JsDate.le_total (a b : JsDate) : JsDate.le a b = true ∨ JsDate.le b a = true := by
  simp only [JsDate.le, Bool.or_eq_true, Bool.and_eq_true, decide_eq_true_eq, beq_iff_eq]
  omega

/-- Transitivity of the date order. -/
theorem JsDate.le_trans (a b c : JsDate) (h1 : JsDate.le a b = true)
    (h2 : JsDate.le b c = true) : JsDate.le a c = true := by
  simp only [JsDate.le, Bool.or_eq_true, Bool.and_eq_true, decide_eq_true_eq,
    beq_iff_eq] at h1 h2 ⊢
  omega

/-- The head of the descending date sort is a maximum of the input
list. -/
theorem sortDatesDesc_head_max (l : List JsDate) (hne : l ≠ []) :
    (sortDatesDesc l).headD default ∈ l ∧
    ∀ d ∈ l, JsDate.le d ((sortDatesDesc l).headD default) = true := by
  unfold sortDatesDesc
  induction l with
  | nil => exact absurd rfl hne
  | cons x xs ih =>
    simp only [sortBy]
    cases hxs : sortBy (fun y x => !(JsDate.le y x)) xs with
    | nil =>
      have hxsnil : ∀ d ∈ xs, False := by
        intro d hd
        have : d ∈ sortBy (fun y x => !(JsDate.le y x)) xs := (mem_sortBy _ d xs).mpr hd
        rw [hxs] at this
        exact absurd this (List.not_mem_nil d)
      simp only [insertSorted]
      constructor
      · exact List.mem_cons_self x xs
      · intro d hd
        rcases List.mem_cons.mp hd with rfl | hd2
        · exact JsDate.le_refl d
        · exact absurd hd2 (fun h => hxsnil d h)
    | cons y ys =>
      have hxsne : xs ≠ [] := by
        intro h
        rw [h] at hxs
        simp [sortBy] at hxs
      obtain ⟨ihmem, ihmax⟩ := ih hxsne
      rw [hxs] at ihmem ihmax
      simp only [List.headD_cons] at ihmem ihmax
      simp only [insertSorted]
      by_cases hk : (!(JsDate.le y x)) = true
      · rw [if_pos hk]
        have hxy : JsDate.le x y = true := by
          rcases JsDate.le_total x y with h | h
          · exact h
          · exact absurd h (by simpa using hk)
        constructor
        · exact List.mem_cons_of_mem x ihmem
        · intro d hd
          rcases List.mem_cons.mp hd with rfl | hd2
          · exact hxy
          · exact ihmax d hd2
      · rw [if_neg hk]
        have hyx : JsDate.le y x = true := by simpa using hk
        constructor
        · exact List.mem_cons_self x xs
        · intro d hd
          rcases List.mem_cons.mp hd with rfl | hd2
          · exact JsDate.le_refl d
          · exact JsDate.le_trans d y x (ihmax d hd2) hyx

/-- Inserting a recurring transaction maps the accumulator names the same
way the distinct-name fold steps. -/
theorem map_name_insertRecurring (m : List BillAcc) (t : Txn) :
    (insertRecurring m t).map (fun b => b.name)
      = if (m.map fun b => b.name).any (fun n => n == t.name)
        then m.map (fun b => b.name) else m.map (fun b => b.name) ++ [t.name] := by
  have hcon : ((m.map fun b => b.name).any fun n => n == t.name)
      = (m.any fun b => b.name == t.name) := by
    induction m with
    | nil => rfl
    | cons b bs ihm => simp only [List.map_cons, List.any_cons, ihm]
  rw [hcon]
  unfold insertRecurring
  by_cases hany : (m.any fun b => b.name == t.name) = true
  · rw [if_pos hany, if_pos hany, List.map_map]
    exact List.map_congr_left fun b _ => by
      by_cases hb : (b.name == t.name) = true <;> simp [Function.comp, hb]
  · rw [if_neg hany, if_neg hany, List.map_append]
    rfl

/-- The recurringMap holds exactly the distinct recurring payee names, in
first-encounter order: one entry per distinct payee. -/
theorem buildRecurringMap_names (ts : List Txn) :
    (buildRecurringMap ts).map (fun b => b.name) = distinctRecurringNames ts := by
  unfold buildRecurringMap distinctRecurringNames
  generalize (ts.filter fun t => t.recurring) = l
  suffices h : ∀ init : List BillAcc,
      (l.foldl insertRecurring init).map (fun b => b.name)
        = l.foldl (fun acc t => if acc.any (fun n => n == t.name) then acc
            else acc ++ [t.name]) (init.map fun b => b.name) by
    simpa using h []
  induction l with
  | nil => intro init; rfl
  | cons t rest ih =>
    intro init
    simp only [List.foldl_cons]
    rw [ih (insertRecurring init t), map_name_insertRecurring]

/-- Classification preserves each record name. -/
theorem processBillsGo_names (i : Nat) (accs : List BillAcc) :
    (processBillsGo i accs).map (fun b => b.name) = accs.map (fun b => b.name) := by
  induction accs generalizing i with
  | nil => rfl
  | cons a as ih =>
    simp only [processBillsGo, List.map_cons]
    rw [ih]
    rfl

/-- Every classified record originates from one recurringMap entry. -/
theorem processBillsGo_mem (i : Nat) (accs : List BillAcc) :
    ∀ b ∈ processBillsGo i accs, ∃ j, ∃ a ∈ accs, b = processBillMem j a := by
  induction accs generalizing i with
  | nil => simp [processBillsGo]
  | cons a as ih =>
    intro b hb
    simp only [processBillsGo] at hb
    rcases List.mem_cons.mp hb with h | h
    · exact ⟨i, a, by simp, h⟩
    · rcases ih (i + 1) b h with ⟨j, c, hc, hbc⟩
      exact ⟨j, c, by simp [hc], hbc⟩

/-- Every recurringMap entry holds at least one date. -/
theorem buildRecurringMap_dates_ne_nil (ts : List Txn) :
    ∀ b ∈ buildRecurringMap ts, b.dates ≠ [] := by
  unfold buildRecurringMap
  generalize (ts.filter fun t => t.recurring) = l
  suffices h : ∀ init : List BillAcc, (∀ b ∈ init, b.dates ≠ []) →
      ∀ b ∈ l.foldl insertRecurring init, b.dates ≠ [] by
    exact h [] (by simp)
  induction l with
  | nil =>
    intro init hinit b hb
    exact hinit b hb
  | cons t rest ih =>
    intro init hinit b hb
    refine ih (insertRecurring init t) ?_ b hb
    intro c hc
    unfold insertRecurring at hc
    split at hc
    · rcases List.mem_map.mp hc with ⟨c0, hc0, rfl⟩
      by_cases hn : (c0.name == t.name) = true
      · rw [if_pos hn]
        simp
      · rw [if_neg hn]
        exact hinit c0 hc0
    · rcases List.mem_append.mp hc with h | h
      · exact hinit c h
      · rcases List.mem_singleton.mp h with rfl
        simp

/-- C5: the grouped classifier (the in-memory variant, and identically
the two frontend classifiers) emits one record per distinct payee with
lastDate = the maximum date of the group and isPaid iff some transaction
of the group lies in the reference month, as the claim states; but the
MySQL + auth endpoint emits one record per recurring transaction ROW
(its SELECT has no GROUP BY despite its own 'unique recurring
transactions' comment), so a payee with two recurring transactions
yields two records there. -/
theorem c5_recurring_grouping (ts : List Txn) (sort : String) :
    (List.Perm ((recurringBillsMem ts none sort).1.map (fun b => b.name))
      (distinctRecurringNames ts)) ∧
    (∀ b ∈ (recurringBillsMem ts none sort).1,
      b.lastDate ∈ b.dates ∧
      (∀ d ∈ b.dates, JsDate.le d b.lastDate = true) ∧
      b.isPaid = b.dates.any (fun d => d.month == 7 && d.year == 2024)) ∧
    distinctRecurringNames [demoNetflixJul, demoNetflixAug] = ["Netflix"] ∧
    (recurringBillsMem [demoNetflixJul, demoNetflixAug] none "latest").1.length = 1 ∧
    ((recurringBillsMem [demoNetflixJul, demoNetflixAug] none "latest").1.headD
        default).name = "Netflix" ∧
    ((recurringBillsMem [demoNetflixJul, demoNetflixAug] none "latest").1.headD
        default).dates = [⟨2024, 7, 15⟩, ⟨2024, 6, 15⟩] ∧
    ((recurringBillsMem [demoNetflixJul, demoNetflixAug] none "latest").1.headD
        default).lastDate = ⟨2024, 7, 15⟩ ∧
    ((recurringBillsMem [demoNetflixJul, demoNetflixAug] none "latest").1.headD
        default).isPaid = true ∧
    (recurringBillsDb [demoNetflixJul, demoNetflixAug] none "latest"
        ⟨2024, 7, 19⟩).1.length = 2 := by
  have heq : (recurringBillsMem ts none sort).1
      = sortBillsMem (processBillsGo 0 (buildRecurringMap ts)) sort := rfl
  refine ⟨?_, ?_, by decide, by decide, by decide, by decide, by decide, by decide,
    by decide⟩
  · rw [heq]
    have hperm := List.Perm.map (fun b : RecurringBill => b.name)
      (sortBillsMem_perm (processBillsGo 0 (buildRecurringMap ts)) sort)
    rw [processBillsGo_names, buildRecurringMap_names] at hperm
    exact hperm
  · intro b hb
    rw [heq, mem_sortBillsMem] at hb
    rcases processBillsGo_mem 0 _ b hb with ⟨j, acc, hacc, rfl⟩
    have hne := buildRecurringMap_dates_ne_nil ts acc hacc
    obtain ⟨hmem0, hmax0⟩ := sortDatesDesc_head_max acc.dates hne
    refine ⟨?_, ?_, rfl⟩
    · show (sortDatesDesc acc.dates).headD default ∈ sortDatesDesc acc.dates
      unfold sortDatesDesc
      rw [mem_sortBy]
      exact hmem0
    · intro d hd
      have hd2 : d ∈ acc.dates := by
        have hmem : d ∈ sortDatesDesc acc.dates := hd
        unfold sortDatesDesc at hmem
        rw [mem_sortBy] at hmem
        exact hmem
      exact hmax0 d hd2

/-- Witness for C5 at the Netflix demo input: the single grouped record
keeps its lastDate inside its date group and above the July date. -/
theorem c5_recurring_grouping_witness :
    ((recurringBillsMem [demoNetflixJul, demoNetflixAug] none "latest").1.headD
        default).lastDate
      ∈ ((recurringBillsMem [demoNetflixJul, demoNetflixAug] none "latest").1.headD
        default).dates ∧
    JsDate.le ⟨2024, 6, 15⟩
      ((recurringBillsMem [demoNetflixJul, demoNetflixAug] none "latest").1.headD
        default).lastDate = true := by
  have h := c5_recurring_grouping [demoNetflixJul, demoNetflixAug] "latest"
  have hb := h.2.1 ((recurringBillsMem [demoNetflixJul, demoNetflixAug]
    none "latest").1.headD default) (by decide)
  exact ⟨hb.1, hb.2.1 ⟨2024, 6, 15⟩ (by decide)⟩

/-- Every recurringMap entry carries a Math.abs amount, hence a
nonnegative one. -/
theorem buildRecurringMap_amount_nonneg (ts : List Txn) :
    ∀ b ∈ buildRecurringMap ts, 0 ≤ b.amount := by
  unfold buildRecurringMap
  generalize (ts.filter fun t => t.recurring) = l
  suffices h : ∀ init : List BillAcc, (∀ b ∈ init, 0 ≤ b.amount) →
      ∀ b ∈ l.foldl insertRecurring init, 0 ≤ b.amount by
    exact h [] (by simp)
  induction l with
  | nil =>
    intro init hinit b hb
    exact hinit b hb
  | cons t rest ih =>
    intro init hinit b hb
    refine ih (insertRecurring init t) ?_ b hb
    intro c hc
    unfold insertRecurring at hc
    split at hc
    · rcases List.mem_map.mp hc with ⟨c0, hc0, rfl⟩
      by_cases hn : (c0.name == t.name) = true
      · rw [if_pos hn]
        exact hinit c0 hc0
      · rw [if_neg hn]
        exact hinit c0 hc0
    · rcases List.mem_append.mp hc with h | h
      · exact hinit c h
      · rcases List.mem_singleton.mp h with rfl
        exact abs_nonneg t.amount

/-- Every classified record's amount comes from its accumulator entry. -/
theorem processBillsGo_amount (i : Nat) (accs : List BillAcc) :
    ∀ b ∈ processBillsGo i accs, ∃ a ∈ accs, b.amount = a.amount := by
  induction accs generalizing i with
  | nil => simp [processBillsGo]
  | cons a as ih =>
    intro b hb
    simp only [processBillsGo] at hb
    rcases List.mem_cons.mp hb with h | h
    · exact ⟨a, by simp, by rw [h]; rfl⟩
    · rcases ih (i + 1) b h with ⟨c, hc, hc2⟩
      exact ⟨c, by simp [hc], hc2⟩

/-- The SQL ORDER BY switch never adds or removes rows. -/
theorem mem_sortRowsDb (rows : List Txn) (sort : String) (t : Txn) :
    t ∈ sortRowsDb rows sort ↔ t ∈ rows := by
  unfold sortRowsDb
  split_ifs <;> simp [mem_sortBy]

/-- A left fold of additions starting from a nonnegative accumulator over
nonnegative values stays nonnegative. -/
theorem foldl_add_nonneg (l : List Rat) (acc : Rat) (hacc : 0 ≤ acc)
    (h : ∀ a ∈ l, 0 ≤ a) : 0 ≤ l.foldl (fun sum a => sum + a) acc := by
  induction l generalizing acc with
  | nil => simpa using hacc
  | cons x xs ih =>
    simp only [List.foldl_cons]
    refine ih (acc + x) ?_ (fun a ha => h a (by simp [ha]))
    have := h x (by simp)
    linarith

/-- reduce((sum, b) => sum + b.amount, 0) over nonnegative amounts is
nonnegative. -/
theorem sumAmounts_nonneg (l : List Rat) (h : ∀ a ∈ l, 0 ≤ a) : 0 ≤ sumAmounts l :=
  foldl_add_nonneg l 0 le_rfl h

/-- C9: every bill record returned by either recurring-bills endpoint
carries a nonnegative amount (Math.abs of the underlying transaction
amount), so the three summary totals paid, upcoming and dueSoon are all
nonnegative for every input transaction set, search and sort. -/
theorem c9_recurring_amounts_nonneg (ts rows : List Txn) (search : Option String)
    (sort : String) (today : JsDate) :
    (∀ b ∈ (recurringBillsMem ts search sort).1, 0 ≤ b.amount) ∧
    0 ≤ (recurringBillsMem ts search sort).2.paid ∧
    0 ≤ (recurringBillsMem ts search sort).2.upcoming ∧
    0 ≤ (recurringBillsMem ts search sort).2.dueSoon ∧
    (∀ b ∈ (recurringBillsDb rows search sort today).1, 0 ≤ b.amount) ∧
    0 ≤ (recurringBillsDb rows search sort today).2.paid ∧
    0 ≤ (recurringBillsDb rows search sort today).2.upcoming ∧
    0 ≤ (recurringBillsDb rows search sort today).2.dueSoon := by
  have hmem : ∀ b ∈ (recurringBillsMem ts search sort).1, 0 ≤ b.amount := by
    intro b hb
    have hb2 : b ∈ processBillsGo 0 (buildRecurringMap ts) := by
      cases search with
      | none =>
        simp only [recurringBillsMem] at hb
        rw [mem_sortBillsMem] at hb
        exact hb
      | some q =>
        simp only [recurringBillsMem] at hb
        rw [mem_sortBillsMem] at hb
        exact (List.mem_filter.mp hb).1
    rcases processBillsGo_amount 0 _ b hb2 with ⟨acc, hacc, heq⟩
    rw [heq]
    exact buildRecurringMap_amount_nonneg ts acc hacc
  have hsum : ∀ p : RecurringBill → Bool,
      0 ≤ sumAmounts (((recurringBillsMem ts search sort).1.filter p).map
        (fun b => b.amount)) := by
    intro p
    apply sumAmounts_nonneg
    intro a ha
    rcases List.mem_map.mp ha with ⟨b, hb, rfl⟩
    exact hmem b (List.mem_filter.mp hb).1
  have hdb : ∀ b ∈ (recurringBillsDb rows search sort today).1, 0 ≤ b.amount := by
    intro b hb
    have hb2 : ∃ t, b = processBillDb today t := by
      cases search with
      | none =>
        simp only [recurringBillsDb] at hb
        rcases List.mem_map.mp hb with ⟨t, _, rfl⟩
        exact ⟨t, rfl⟩
      | some q =>
        simp only [recurringBillsDb] at hb
        rcases List.mem_map.mp hb with ⟨t, _, rfl⟩
        exact ⟨t, rfl⟩
    rcases hb2 with ⟨t, rfl⟩
    exact abs_nonneg t.amount
  have hsumD : ∀ p : DbRecurringBill → Bool,
      0 ≤ sumAmounts (((recurringBillsDb rows search sort today).1.filter p).map
        (fun b => b.amount)) := by
    intro p
    apply sumAmounts_nonneg
    intro a ha
    rcases List.mem_map.mp ha with ⟨b, hb, rfl⟩
    exact hdb b (List.mem_filter.mp hb).1
  exact ⟨hmem, hsum _, hsum _, hsum _, hdb, hsumD _, hsumD _, hsumD _⟩

/-- Witness for C9 on the Netflix demo: the single grouped record's
amount and the paid total are nonnegative. -/
theorem c9_recurring_amounts_nonneg_witness :
    0 ≤ ((recurringBillsMem [demoNetflixJul, demoNetflixAug] none "latest").1.headD
        default).amount ∧
    0 ≤ (recurringBillsMem [demoNetflixJul, demoNetflixAug] none "latest").2.paid := by
  have h := c9_recurring_amounts_nonneg [demoNetflixJul, demoNetflixAug] []
    none "latest" ⟨2024, 7, 19⟩
  exact ⟨h.1 _ (by decide), h.2.1⟩

end FinanceApp
